import Mathlib

/-!
Verification of the options-strategy visualiser core (src/app.py) against
its design specification.

The pricing engine, PnL aggregator, price grid and summary metrics are
shallowly embedded over the reals.  Floating-point arithmetic is modelled
by exact real arithmetic; the standard normal cumulative distribution
function (`scipy.stats.norm.cdf`, an external library routine) is modelled
by an abstract parameter `Φ : ℝ → ℝ`, with its defining symmetry property
`Φ x + Φ (-x) = 1` taken as an explicit hypothesis where a proof needs it.
Option types are strings, exactly as in the Python source, since the code
dispatches on the literal comparison `option_type == "call"`.
-/

namespace OptionViz

/-- One option position, mirroring the dict
`{"type": ..., "k": strike, "p": premium, "q": qty}` built by the UI loop. -/
structure Leg where
  type : String
  k : ℝ
  p : ℝ
  q : ℝ

/-- Embedding of `black_scholes(S, K, T, r, sigma, option_type)` from
src/app.py.  `Φ` stands for `scipy.stats.norm.cdf(·, 0.0, 1.0)`. -/
noncomputable def black_scholes (Φ : ℝ → ℝ) (S K T r sigma : ℝ)
    (option_type : String) : ℝ :=
  if T ≤ 1e-6 then
    (if option_type = "call" then max 0 (S - K) else max 0 (K - S))
  else
    let d1 := (Real.log (S / K) + (r + 0.5 * sigma ^ 2) * T) / (sigma * Real.sqrt T)
    let d2 := (Real.log (S / K) + (r - 0.5 * sigma ^ 2) * T) / (sigma * Real.sqrt T)
    if option_type = "call" then
      S * Φ d1 - K * Real.exp (-r * T) * Φ d2
    else
      K * Real.exp (-r * T) * Φ (-d2) - S * Φ (-d1)

/-- The `d1` auxiliary of `black_scholes` (src/app.py line 12). -/
noncomputable def d1 (S K T r sigma : ℝ) : ℝ :=
  (Real.log (S / K) + (r + 0.5 * sigma ^ 2) * T) / (sigma * Real.sqrt T)

/-- The `d2` auxiliary exactly as the code writes it (src/app.py line 13). -/
noncomputable def d2 (S K T r sigma : ℝ) : ℝ :=
  (Real.log (S / K) + (r - 0.5 * sigma ^ 2) * T) / (sigma * Real.sqrt T)

/-- Modelled from the spec: the pricing engine as §4.1 of the specification
writes it, with `d2 = d1 − sigma·√T` instead of the code's expanded
formula.  Used only to compare the two formulations (claim C5). -/
noncomputable def black_scholes_spec (Φ : ℝ → ℝ) (S K T r sigma : ℝ)
    (option_type : String) : ℝ :=
  if T ≤ 1e-6 then
    (if option_type = "call" then max 0 (S - K) else max 0 (K - S))
  else
    let d1v := (Real.log (S / K) + (r + 0.5 * sigma ^ 2) * T) / (sigma * Real.sqrt T)
    let d2v := d1v - sigma * Real.sqrt T
    if option_type = "call" then
      S * Φ d1v - K * Real.exp (-r * T) * Φ d2v
    else
      K * Real.exp (-r * T) * Φ (-d2v) - S * Φ (-d1v)

/-- The per-sample value of one leg inside `get_strategy_pnl`
(src/app.py lines 70–73): intrinsic value when `is_expiry`, otherwise the
Black-Scholes value.  `rate` and `vol` are the globals the Python closure
captures, threaded here as explicit arguments. -/
noncomputable def leg_value (Φ : ℝ → ℝ) (rate vol : ℝ) (leg : Leg)
    (s t_remaining : ℝ) (is_expiry : Bool) : ℝ :=
  if is_expiry then
    (if leg.type = "call" then max 0 (s - leg.k) else max 0 (leg.k - s))
  else
    black_scholes Φ s leg.k t_remaining rate vol leg.type

/-- The `leg_pnl` vector built for one leg (src/app.py lines 68–76):
`(value − premium) × quantity` at every grid sample. -/
noncomputable def leg_pnl (Φ : ℝ → ℝ) (rate vol : ℝ) (leg : Leg)
    (S_vec : List ℝ) (t_remaining : ℝ) (is_expiry : Bool) : List ℝ :=
  S_vec.map (fun s => (leg_value Φ rate vol leg s t_remaining is_expiry - leg.p) * leg.q)

/-- Embedding of `get_strategy_pnl(S_vec, t_remaining, is_expiry)`
(src/app.py lines 65–78): start from `np.zeros_like(S_vec)` and add each
leg's PnL vector in order.  The globals `legs`, `rate`, `vol` captured by
the Python function are explicit arguments here. -/
noncomputable def get_strategy_pnl (Φ : ℝ → ℝ) (rate vol : ℝ) (legs : List Leg)
    (S_vec : List ℝ) (t_remaining : ℝ) (is_expiry : Bool) : List ℝ :=
  legs.foldl
    (fun total leg =>
      List.zipWith (· + ·) total (leg_pnl Φ rate vol leg S_vec t_remaining is_expiry))
    (S_vec.map (fun _ => 0))

/-- `np.linspace(start, stop, num)`: `num` evenly spaced samples with step
`(stop − start)/(num − 1)`, endpoints included. -/
noncomputable def linspace (start stop : ℝ) (num : ℕ) : List ℝ :=
  (List.range num).map
    (fun i : ℕ => start + (i : ℝ) * (stop - start) / ((num : ℝ) - 1))

/-- The price grid `S_range = np.linspace(S0 * 0.7, S0 * 1.3, 300)`
(src/app.py line 81). -/
noncomputable def S_range (S0 : ℝ) : List ℝ :=
  linspace (S0 * 0.7) (S0 * 1.3) 300

/-- `net_cost = sum(l['p'] * l['q'] for l in legs)` (src/app.py line 140). -/
noncomputable def net_cost (legs : List Leg) : ℝ :=
  (legs.map (fun l => l.p * l.q)).sum

/-- `type_trade = "Crédit reçu" if net_cost < 0 else "Débit payé"`
(src/app.py line 141). -/
noncomputable def type_trade (legs : List Leg) : String :=
  if net_cost legs < 0 then "Crédit reçu" else "Débit payé"

/-- `current_val = sum(black_scholes(S0, l['k'], T_current, rate, vol,
l['type']) * l['q'] for l in legs)` (src/app.py line 146). -/
noncomputable def current_val (Φ : ℝ → ℝ) (S0 T_current rate vol : ℝ)
    (legs : List Leg) : ℝ :=
  (legs.map (fun l => black_scholes Φ S0 l.k T_current rate vol l.type * l.q)).sum

/-- `pnl_total = current_val - net_cost` (src/app.py line 149). -/
noncomputable def pnl_total (Φ : ℝ → ℝ) (S0 T_current rate vol : ℝ)
    (legs : List Leg) : ℝ :=
  current_val Φ S0 T_current rate vol legs - net_cost legs

/-! ## Claims -/

/-- C1: for every `S`, `K`, `r`, `sigma` and every `T ≤ 1e-6` (in
particular `T = 0` and `T = ε/2`), `black_scholes` returns exactly the
intrinsic value — `max 0 (S − K)` for a call and `max 0 (K − S)` for a
put — independently of `sigma`, `r` and the CDF `Φ`. -/
theorem near_expiry_intrinsic (Φ : ℝ → ℝ) (S K T r sigma : ℝ)
    (hT : T ≤ 1e-6) :
    black_scholes Φ S K T r sigma "call" = max 0 (S - K) ∧
    black_scholes Φ S K T r sigma "put" = max 0 (K - S) := by
  have hpc : ¬ ("put" = "call") := by decide
  constructor <;> simp [black_scholes, hT, hpc]

/-- Witness for C1 at `T = ε/2 = 5e-7`. -/
theorem near_expiry_intrinsic_witness :
    black_scholes (fun _ => (1:ℝ)/2) 5 3 (1e-6/2) 0 1 "call" = max 0 (5 - 3) ∧
    black_scholes (fun _ => (1:ℝ)/2) 5 3 (1e-6/2) 0 1 "put" = max 0 (3 - 5) :=
  near_expiry_intrinsic (fun _ => (1:ℝ)/2) 5 3 (1e-6/2) 0 1 (by norm_num)

/-- C2: at time-remaining `0`, the aggregator gives the same curve with
`is_expiry = false` as with `is_expiry = true` (here even with exact
equality, since the `T ≤ ε` branch of `black_scholes` returns the very
same intrinsic-value expression the expiry branch uses). -/
theorem strategy_pnl_at_zero_time (Φ : ℝ → ℝ) (rate vol : ℝ)
    (legs : List Leg) (S_vec : List ℝ) :
    get_strategy_pnl Φ rate vol legs S_vec 0 false
      = get_strategy_pnl Φ rate vol legs S_vec 0 true := by
  have h : ∀ leg s, leg_value Φ rate vol leg s 0 false
      = leg_value Φ rate vol leg s 0 true := by
    intro leg s
    simp [leg_value, black_scholes, show (0:ℝ) ≤ 1e-6 by norm_num]
  simp only [get_strategy_pnl, leg_pnl, h]

/-- C7: with an empty list of legs the aggregator returns the all-zero
curve: one `0` per grid point, for every grid, time and expiry flag. -/
theorem strategy_pnl_empty (Φ : ℝ → ℝ) (rate vol : ℝ) (S_vec : List ℝ)
    (t_remaining : ℝ) (is_expiry : Bool) :
    get_strategy_pnl Φ rate vol [] S_vec t_remaining is_expiry
        = S_vec.map (fun _ => 0) ∧
    ∀ x ∈ get_strategy_pnl Φ rate vol [] S_vec t_remaining is_expiry, x = 0 := by
  refine ⟨rfl, ?_⟩
  intro x hx
  simp only [get_strategy_pnl, List.foldl_nil, List.mem_map] at hx
  obtain ⟨s, _, hs⟩ := hx
  exact hs.symm

/-- C10: any `option_type` string other than exactly `"call"` is priced as
a put by `black_scholes`, the expiry branch of the aggregator likewise
uses the put intrinsic value for such a leg, and no error is raised. -/
theorem non_call_type_priced_as_put (Φ : ℝ → ℝ) (S K T r sigma : ℝ)
    (rate vol k p q s t : ℝ) (ty : String) (hty : ty ≠ "call") :
    black_scholes Φ S K T r sigma ty = black_scholes Φ S K T r sigma "put" ∧
    leg_value Φ rate vol ⟨ty, k, p, q⟩ s t true = max 0 (k - s) := by
  have hpc : ¬ ("put" = "call") := by decide
  constructor
  · simp [black_scholes, hty, hpc]
  · simp [leg_value, hty]

/-- Witness for C10 with the string `"Put"`. -/
theorem non_call_type_priced_as_put_witness :
    black_scholes (fun _ => (1:ℝ)/2) 100 95 1 0 1 "Put"
      = black_scholes (fun _ => (1:ℝ)/2) 100 95 1 0 1 "put" ∧
    leg_value (fun _ => (1:ℝ)/2) 0 1 ⟨"Put", 95, 2, 1⟩ 100 1 true
      = max 0 (95 - 100) :=
  non_call_type_priced_as_put (fun _ => (1:ℝ)/2) 100 95 1 0 1 0 1 95 2 1 100 1
    "Put" (by decide)

/-- Pointwise addition of two vectors obtained by sampling functions over
the same grid is the sampling of the pointwise sum. -/
theorem zipWith_add_map_map (l : List ℝ) (f g : ℝ → ℝ) :
    List.zipWith (· + ·) (l.map f) (l.map g) = l.map (fun s => f s + g s) := by
  induction l with
  | nil => rfl
  | cons a t ih => simp [ih]

/-- C4: superposition — the PnL curve of a two-leg strategy is the
elementwise sum of the two single-leg curves, with no cross-leg terms,
for every grid, time-remaining and expiry flag. -/
theorem strategy_pnl_superposition (Φ : ℝ → ℝ) (rate vol : ℝ) (A B : Leg)
    (S_vec : List ℝ) (t_remaining : ℝ) (is_expiry : Bool) :
    get_strategy_pnl Φ rate vol [A, B] S_vec t_remaining is_expiry
      = List.zipWith (· + ·)
          (get_strategy_pnl Φ rate vol [A] S_vec t_remaining is_expiry)
          (get_strategy_pnl Φ rate vol [B] S_vec t_remaining is_expiry) := by
  simp only [get_strategy_pnl, leg_pnl, List.foldl_cons, List.foldl_nil,
    zipWith_add_map_map, zero_add]

/-- Counterexample to C3 as stated: with spot `S = −5 ≤ 0` (and `T = 0`)
the code silently returns the numeric price `0` instead of failing with an
InvalidParameter error. -/
theorem no_invalid_parameter_error :
    black_scholes (fun _ => (1:ℝ)/2) (-5) 3 0 0 1 "call" = 0 := by
  norm_num [black_scholes]

/-- C3 (amended): the code performs no input validation — `black_scholes`
is a total function that returns a numeric result on every input; in
particular, whenever `T ≤ 1e-6` it returns the intrinsic value even when
`S ≤ 0`, `K ≤ 0`, `sigma ≤ 0` or `T < 0`, instead of rejecting them. -/
theorem invalid_inputs_not_rejected (Φ : ℝ → ℝ) (S K T r sigma : ℝ)
    (hT : T ≤ 1e-6) (hbad : S ≤ 0 ∨ K ≤ 0 ∨ sigma ≤ 0 ∨ T < 0) :
    black_scholes Φ S K T r sigma "call" = max 0 (S - K) ∧
    black_scholes Φ S K T r sigma "put" = max 0 (K - S) := by
  have hpc : ¬ ("put" = "call") := by decide
  constructor <;> simp [black_scholes, hT, hpc]

/-- Witness for the amended C3 at `S = −5`, `T = −1 < 0`. -/
theorem invalid_inputs_not_rejected_witness :
    black_scholes (fun _ => (1:ℝ)/2) (-5) 3 (-1) 0 1 "call" = max 0 (-5 - 3) ∧
    black_scholes (fun _ => (1:ℝ)/2) (-5) 3 (-1) 0 1 "put" = max 0 (3 - -5) :=
  invalid_inputs_not_rejected (fun _ => (1:ℝ)/2) (-5) 3 (-1) 0 1 (by norm_num)
    (Or.inl (by norm_num))

/-- C5: on the valid domain the code's expanded `d2` formula equals the
spec's `d1 − sigma·√T`, hence the code's pricing function and the
spec-formulated one (`black_scholes_spec`) return the same value for
every option type. -/
theorem d2_formulations_agree (Φ : ℝ → ℝ) (S K T r sigma : ℝ) (ty : String)
    (hS : 0 < S) (hK : 0 < K) (hsigma : 0 < sigma) (hT : 1e-6 < T) :
    d2 S K T r sigma = d1 S K T r sigma - sigma * Real.sqrt T ∧
    black_scholes Φ S K T r sigma ty = black_scholes_spec Φ S K T r sigma ty := by
  have hT0 : (0:ℝ) < T := lt_trans (by norm_num) hT
  have hsq : Real.sqrt T ≠ 0 := ne_of_gt (Real.sqrt_pos.mpr hT0)
  have hss : Real.sqrt T * Real.sqrt T = T := Real.mul_self_sqrt hT0.le
  have hσ : sigma ≠ 0 := ne_of_gt hsigma
  have key : (Real.log (S / K) + (r - 0.5 * sigma ^ 2) * T) / (sigma * Real.sqrt T)
      = (Real.log (S / K) + (r + 0.5 * sigma ^ 2) * T) / (sigma * Real.sqrt T)
        - sigma * Real.sqrt T := by
    have hsq2 : Real.sqrt T ^ 2 = T := Real.sq_sqrt hT0.le
    field_simp
    linear_combination sigma ^ 2 * hsq2
  refine ⟨key, ?_⟩
  have hT' : ¬ (T ≤ 1e-6) := not_le.mpr hT
  simp only [black_scholes, black_scholes_spec, if_neg hT']
  rw [key]

/-- Witness for C5 at `S = K = 1`, `T = 1`, `r = 0`, `sigma = 1`. -/
theorem d2_formulations_agree_witness :
    d2 1 1 1 0 1 = d1 1 1 1 0 1 - 1 * Real.sqrt 1 ∧
    black_scholes (fun _ => (1:ℝ)/2) 1 1 1 0 1 "call"
      = black_scholes_spec (fun _ => (1:ℝ)/2) 1 1 1 0 1 "call" :=
  d2_formulations_agree (fun _ => (1:ℝ)/2) 1 1 1 0 1 "call"
    (by norm_num) (by norm_num) (by norm_num) (by norm_num)

/-- C6: put-call parity — above the near-expiry threshold and with a CDF
satisfying `Φ x + Φ (−x) = 1`, the call and put values satisfy
`call − put = S − K·e^(−r·T)` exactly in real arithmetic. -/
theorem put_call_parity (Φ : ℝ → ℝ) (hΦ : ∀ x, Φ x + Φ (-x) = 1)
    (S K T r sigma : ℝ) (hS : 0 < S) (hK : 0 < K) (hsigma : 0 < sigma)
    (hT : 1e-6 < T) :
    black_scholes Φ S K T r sigma "call" - black_scholes Φ S K T r sigma "put"
      = S - K * Real.exp (-r * T) := by
  have hT' : ¬ (T ≤ 1e-6) := not_le.mpr hT
  have hpc : ¬ ("put" = "call") := by decide
  simp only [black_scholes, if_neg hT', if_neg hpc, if_true]
  have h1 := hΦ ((Real.log (S / K) + (r + 0.5 * sigma ^ 2) * T) / (sigma * Real.sqrt T))
  have h2 := hΦ ((Real.log (S / K) + (r - 0.5 * sigma ^ 2) * T) / (sigma * Real.sqrt T))
  linear_combination S * h1 - K * Real.exp (-r * T) * h2

/-- Witness for C6 with the symmetric CDF stand-in `Φ = fun _ => 1/2` at
`S = K = 1`, `T = 1`, `r = 0`, `sigma = 1`. -/
theorem put_call_parity_witness :
    black_scholes (fun _ => (1:ℝ)/2) 1 1 1 0 1 "call"
        - black_scholes (fun _ => (1:ℝ)/2) 1 1 1 0 1 "put"
      = 1 - 1 * Real.exp (-0 * 1) :=
  put_call_parity (fun _ => (1:ℝ)/2) (fun x => by norm_num) 1 1 1 0 1
    (by norm_num) (by norm_num) (by norm_num) (by norm_num)

/-- C8: the net premium is `Σ premium × quantity` over the legs, a strictly
negative net premium is reported as credit received and a nonnegative one
as debit paid, and the unrealized PnL is mark-to-market minus net
premium. -/
theorem summary_metrics (Φ : ℝ → ℝ) (S0 T_current rate vol : ℝ)
    (legs : List Leg) :
    net_cost legs = (legs.map (fun l => l.p * l.q)).sum ∧
    (type_trade legs = "Crédit reçu" ↔ net_cost legs < 0) ∧
    (type_trade legs = "Débit payé" ↔ 0 ≤ net_cost legs) ∧
    pnl_total Φ S0 T_current rate vol legs
      = current_val Φ S0 T_current rate vol legs - net_cost legs := by
  have hne : ¬ ("Débit payé" = "Crédit reçu") := by decide
  have hne2 : ¬ ("Crédit reçu" = "Débit payé") := by decide
  refine ⟨rfl, ?_, ?_, rfl⟩
  · unfold type_trade
    by_cases h : net_cost legs < 0
    · simp [h]
    · simp [h, hne]
  · unfold type_trade
    by_cases h : net_cost legs < 0
    · simp [h, hne2, not_le.mpr h]
    · simp [h, not_lt.mp h]

/-- Value of the price grid at index `i < 300`. -/
theorem S_range_getD (S0 : ℝ) (i : ℕ) (hi : i < 300) :
    (S_range S0).getD i 0 = S0 * 0.7 + i * (S0 * 1.3 - S0 * 0.7) / 299 := by
  simp [S_range, linspace, List.getD_eq_getElem?_getD, List.getElem?_map,
    List.getElem?_range, hi]
  norm_num

/-- C9: for `S0 > 0` the grid has exactly 300 samples, is strictly
increasing, starts at `0.7·S0`, ends at `1.3·S0`, and has constant spacing
`(1.3·S0 − 0.7·S0)/299` (a uniform partition). -/
theorem price_grid_uniform (S0 : ℝ) (hS0 : 0 < S0) :
    (S_range S0).length = 300 ∧
    List.Chain' (· < ·) (S_range S0) ∧
    (S_range S0).getD 0 0 = S0 * 0.7 ∧
    (S_range S0).getD 299 0 = S0 * 1.3 ∧
    ∀ i : ℕ, i + 1 < 300 →
      (S_range S0).getD (i + 1) 0 - (S_range S0).getD i 0
        = (S0 * 1.3 - S0 * 0.7) / 299 := by
  have hstep : 0 < (S0 * 1.3 - S0 * 0.7) / 299 := by
    have h06 : S0 * 1.3 - S0 * 0.7 = 0.6 * S0 := by ring
    rw [h06]
    positivity
  refine ⟨?_, ?_, ?_, ?_, ?_⟩
  · simp [S_range, linspace]
  · rw [S_range, linspace, List.chain'_map]
    have h300 : (300 : ℕ) = 299 + 1 := rfl
    rw [h300, List.chain'_range_succ]
    intro m _
    push_cast
    have hgap : ((m : ℝ) + 1) * (S0 * 1.3 - S0 * 0.7) / ((300:ℝ) - 1)
        - (m : ℝ) * (S0 * 1.3 - S0 * 0.7) / ((300:ℝ) - 1)
        = (S0 * 1.3 - S0 * 0.7) / 299 := by
      norm_num
      ring
    nlinarith [hgap, hstep]
  · rw [S_range_getD S0 0 (by norm_num)]
    norm_num
  · rw [S_range_getD S0 299 (by norm_num)]
    push_cast
    field_simp
  · intro i hi
    rw [S_range_getD S0 (i + 1) hi, S_range_getD S0 i (by omega)]
    push_cast
    ring

/-- Witness for C9 at `S0 = 1`. -/
theorem price_grid_uniform_witness :
    (S_range 1).length = 300 ∧
    List.Chain' (· < ·) (S_range 1) ∧
    (S_range 1).getD 0 0 = 1 * 0.7 ∧
    (S_range 1).getD 299 0 = 1 * 1.3 ∧
    ∀ i : ℕ, i + 1 < 300 →
      (S_range 1).getD (i + 1) 0 - (S_range 1).getD i 0
        = (1 * 1.3 - 1 * 0.7) / 299 :=
  price_grid_uniform 1 (by norm_num)

end OptionViz
